import Mathlib

/-!
Verification development for the python-tdbus marshaling engine
(src/lib/tdbus/_tdbus.c).  The C functions are shallowly embedded as
executable Lean definitions: Python objects become the `PyValue` family,
the libdbus message body becomes the `WireVal` tree, signatures are
`List Char`, and C ints are `Nat`/`Int`.  Recursive C functions whose
recursion is not structural are given an explicit fuel parameter; the
wrappers supply fuel that provably suffices, and running out of fuel is
reported by a dedicated error value that is never reached through the
wrappers.
-/

/-! Python values, as the C module sees them through the CPython API.
`str` is a Python 2 byte string, `uni` a unicode string (both modeled as
their character sequences), `float` is a CPython float whose payload we
model as an exact integer (CPython compares ints and floats exactly;
only integral doubles appear in the claims).  `tuple`/`list` are the two
`PySequence` kinds the binding traffics in, and `dict` is a PyDict,
modeled as its ordered association list.  The family is mutual so that
recursion over it is structural. -/

mutual

inductive PyValue : Type where
  | int (n : Int)
  | float (x : Int)
  | bool (b : Bool)
  | str (s : List Char)
  | uni (s : List Char)
  | tuple (items : PyList)
  | list (items : PyList)
  | dict (entries : PyPairs)

inductive PyList : Type where
  | nil
  | cons (v : PyValue) (vs : PyList)

inductive PyPairs : Type where
  | nil
  | cons (k v : PyValue) (ps : PyPairs)

end

/-! Structural equality on Python values (the equality PyDict keys use,
restricted to the value shapes the decoder produces). -/

mutual

def pyEq : PyValue → PyValue → Bool
  | .int a, .int b => a == b
  | .float a, .float b => a == b
  | .bool a, .bool b => a == b
  | .str a, .str b => a == b
  | .uni a, .uni b => a == b
  | .tuple a, .tuple b => pyEqL a b
  | .list a, .list b => pyEqL a b
  | .dict a, .dict b => pyEqP a b
  | _, _ => false

def pyEqL : PyList → PyList → Bool
  | .nil, .nil => true
  | .cons x xs, .cons y ys => pyEq x y && pyEqL xs ys
  | _, _ => false

def pyEqP : PyPairs → PyPairs → Bool
  | .nil, .nil => true
  | .cons k v ps, .cons k2 v2 ps2 => pyEq k k2 && pyEq v v2 && pyEqP ps ps2
  | _, _ => false

end

/-! The message body, as libdbus hands it back through a DBusMessageIter:
a tree of typed wire values.  Integer payloads are carried as `Int`
(the range checks of the encoder guarantee they fit their width, so the
casts in the C are exact).  `wByteArray` is the fixed byte array that
`dbus_message_iter_get_fixed_array` reads in one step; `wArray` carries
the element-type signature that `dbus_message_iter_get_element_type`
reports.  `wDictEntry` may carry any number of items so that malformed
wires can be expressed. -/

mutual

inductive WireVal : Type where
  | wByte (n : Int)
  | wBool (b : Bool)
  | wI16 (n : Int)
  | wU16 (n : Int)
  | wI32 (n : Int)
  | wU32 (n : Int)
  | wI64 (n : Int)
  | wU64 (n : Int)
  | wDouble (x : Int)
  | wString (s : List Char)
  | wObjectPath (s : List Char)
  | wSignature (s : List Char)
  | wByteArray (s : List Char)
  | wStruct (items : WireList)
  | wArray (esig : List Char) (items : WireList)
  | wDictEntry (items : WireList)
  | wVariant (vsig : List Char) (inner : WireVal)

inductive WireList : Type where
  | nil
  | cons (w : WireVal) (ws : WireList)

end

/-! Character classes: C `isalnum`/`isalpha` in the default locale. -/

def isAlphaC (c : Char) : Bool := c.isAlpha

def isAlnumC (c : Char) : Bool := c.isAlpha || c.isDigit

/-! Identifier validators (`_tdbus_check_path`, `_tdbus_check_interface`,
`_tdbus_check_member`, `_tdbus_check_bus_name`).  Each loop carries the
previous character where the C reads `s[i-1]`, and the running index `i`
where the C compares against DBUS_MAXIMUM_NAME_LENGTH (= 255).  A
lookahead `s[i+1] != 0` becomes `rest` being nonempty. -/

def _tdbus_check_path_loop (prev : Char) : List Char → Bool
  | [] => true
  | c :: rest =>
    (isAlnumC c || c == '_' || (c == '/' && !(prev == '/') && !rest.isEmpty)) &&
    _tdbus_check_path_loop c rest

def _tdbus_check_path (path : List Char) : Bool :=
  match path with
  | [] => false
  | c :: rest => if c = '/' then _tdbus_check_path_loop '/' rest else false

def _tdbus_check_interface_loop (prev : Char) (i ndots : Nat) : List Char → Bool
  | [] => decide (i ≤ 255) && decide (0 < ndots)
  | c :: rest =>
    (isAlnumC c || c == '_' || (c == '.' && !(prev == '.') && !rest.isEmpty)) &&
    _tdbus_check_interface_loop c (i + 1) (if c == '.' then ndots + 1 else ndots) rest

def _tdbus_check_interface (s : List Char) : Bool :=
  match s with
  | c :: rest => (isAlphaC c || c == '_') && _tdbus_check_interface_loop c 1 0 rest
  | [] => false

def _tdbus_check_member_loop (i : Nat) : List Char → Bool
  | [] => decide (i ≤ 255)
  | c :: rest => (isAlnumC c || c == '_') && _tdbus_check_member_loop (i + 1) rest

def _tdbus_check_member (s : List Char) : Bool :=
  match s with
  | c :: rest => (isAlphaC c || c == '_') && _tdbus_check_member_loop 1 rest
  | [] => false

def _tdbus_check_bus_name_loop (prev : Char) (i ndots : Nat) : List Char → Bool
  | [] => decide (i ≤ 255) && decide (0 < ndots)
  | c :: rest =>
    (isAlnumC c || c == '_' || c == '-' || (c == '.' && !(prev == '.') && !rest.isEmpty)) &&
    _tdbus_check_bus_name_loop c (i + 1) (if c == '.' then ndots + 1 else ndots) rest

def _tdbus_check_bus_name (s : List Char) : Bool :=
  match s with
  | [] => false
  | c :: rest =>
    if c = ':' then
      match rest with
      | [] => false
      | d :: rest2 =>
        (isAlnumC d || d == '_' || d == '-') && _tdbus_check_bus_name_loop d 2 0 rest2
    else (isAlnumC c || c == '_' || c == '-') && _tdbus_check_bus_name_loop c 1 0 rest

/-! Signature scanning.  `scanClose` is the depth-counting scan inside
`_tdbus_get_one_full_type`: starting just after an opener at depth 1, it
consumes characters, counting only the given opener/closer pair, and
stops right after the character that brings the depth to 0; running out
of input at positive depth is the C "unbalanced format" error. -/

def scanClose (opener closer : Char) : Nat → List Char → Option (List Char × List Char)
  | 0, cs => some ([], cs)
  | _ + 1, [] => none
  | d + 1, c :: cs =>
    match scanClose opener closer
        (if c = opener then d + 2 else if c = closer then d else d + 1) cs with
    | none => none
    | some (t, rest) => some (c :: t, rest)

/-! `_tdbus_get_one_full_type`: splits off one complete type.  The C
returns a pointer `end`; we return the consumed prefix and the rest.
An empty input is the C `'\0'` case that returns NULL. -/

def _tdbus_get_one_full_type : List Char → Option (List Char × List Char)
  | [] => none
  | 'a' :: cs =>
    match _tdbus_get_one_full_type cs with
    | none => none
    | some (t, rest) => some ('a' :: t, rest)
  | '(' :: cs =>
    match scanClose '(' ')' 1 cs with
    | none => none
    | some (t, rest) => some ('(' :: t, rest)
  | '{' :: cs =>
    match scanClose '{' '}' 1 cs with
    | none => none
    | some (t, rest) => some ('{' :: t, rest)
  | c :: cs => some ([c], cs)

/-! `_tdbus_check_signature`.  The C loop walks the string one complete
type at a time; single characters must come from the basic alphabet
"ybnqiuxtdsogvh"; containers check their depth counter and recurse on
the contents (the text between the opener and the terminator the C
writes at `end`); after each complete type one immediately following
')' or '}' is skipped (this is how a recursive call steps over the
closer of its own container).  `pos` is the offset of the current
read position from the start of this call's string and `lastEnd` the
offset just past the last complete type (the C's `end - start`, checked
against 255; for an empty string `end` is never assigned and we model
the check as passing, which is how the module behaves in practice).
The recursion is not structural, so it carries fuel; the wrapper's
`length + 1` provably never runs out because every recursive call is on
a strictly shorter list. -/

def checkSigF : Nat → List Char → Nat → Nat → Nat → Nat → Option Nat
  | 0, _, _, _, _, _ => none
  | fuel + 1, fmt, ad, sd, pos, lastEnd =>
    match fmt with
    | [] => some lastEnd
    | _ :: _ =>
      match _tdbus_get_one_full_type fmt with
      | none => none
      | some (t, rest) =>
        let ok : Bool :=
          match t with
          | [c] => (("ybnqiuxtdsogvh").data).contains c
          | 'a' :: ts =>
            decide (ad < 32) &&
              (match checkSigF fuel ts (ad + 1) sd 0 0 with
               | none => false
               | some e => decide (e ≤ 255))
          | '(' :: ts =>
            decide (sd < 32) &&
              (match checkSigF fuel ts ad (sd + 1) 0 0 with
               | none => false
               | some e => decide (e ≤ 255))
          | '{' :: ts =>
            decide (sd < 32) &&
              (match checkSigF fuel ts ad (sd + 1) 0 0 with
               | none => false
               | some e => decide (e ≤ 255))
          | _ => false
        if ok then
          match rest with
          | ')' :: rest2 => checkSigF fuel rest2 ad sd (pos + t.length + 1) (pos + t.length)
          | '}' :: rest2 => checkSigF fuel rest2 ad sd (pos + t.length + 1) (pos + t.length)
          | _ => checkSigF fuel rest ad sd (pos + t.length) (pos + t.length)
        else none

def _tdbus_check_signature (fmt : List Char) (ad sd : Nat) : Bool :=
  match checkSigF (fmt.length + 1) fmt ad sd 0 0 with
  | none => false
  | some e => decide (e ≤ 255)

example : _tdbus_check_signature (("a{sv}").data) 0 0 = true := rfl
example : _tdbus_check_signature (("(ii)").data) 0 0 = true := rfl
example : _tdbus_check_signature (("ai").data) 0 0 = true := rfl
example : _tdbus_check_signature (("s").data) 0 0 = true := rfl
example : _tdbus_check_signature (("v").data) 0 0 = true := rfl
example : _tdbus_check_signature (("").data) 0 0 = true := rfl
example : _tdbus_check_signature (("h").data) 0 0 = true := rfl
example : _tdbus_check_signature (("i)").data) 0 0 = true := rfl
example : _tdbus_check_signature (("a").data) 0 0 = false := rfl
example : _tdbus_check_signature (("(ii").data) 0 0 = false := rfl
example : _tdbus_check_signature ((")").data) 0 0 = false := rfl
example : _tdbus_check_signature (("z").data) 0 0 = false := rfl
example : _tdbus_check_signature (("{sv}").data) 0 0 = true := rfl
example : _tdbus_check_signature (("a{svv}").data) 0 0 = true := rfl
example : _tdbus_check_signature (("a{(i)v}").data) 0 0 = true := rfl
example : _tdbus_check_signature (("{i}").data) 0 0 = true := rfl

example : _tdbus_check_path (("/").data) = true := rfl
example : _tdbus_check_path (("/com/example/Obj1").data) = true := rfl
example : _tdbus_check_path (("/a//b").data) = false := rfl
example : _tdbus_check_path (("/a/").data) = false := rfl
example : _tdbus_check_path (("a").data) = false := rfl
example : _tdbus_check_interface (("com.example").data) = true := rfl
example : _tdbus_check_interface (("com").data) = false := rfl
example : _tdbus_check_member (("Hello_9").data) = true := rfl
example : _tdbus_check_member (("9Hello").data) = false := rfl
example : _tdbus_check_bus_name ((":1.42").data) = true := rfl
example : _tdbus_check_bus_name (("org.freedesktop.DBus").data) = true := rfl
example : _tdbus_check_bus_name ((":").data) = false := rfl

/-! Sizes of Python values, used as the fuel measure of the encoder:
every recursive call of the encoder strictly decreases (size + format
length) except for two bookkeeping steps, which the slack constants in
the wrappers absorb. -/

mutual

def pySize : PyValue → Nat
  | .int _ => 1
  | .float _ => 1
  | .bool _ => 1
  | .str s => 1 + s.length
  | .uni s => 1 + s.length
  | .tuple xs => 1 + pySizeL xs
  | .list xs => 1 + pySizeL xs
  | .dict es => 1 + pySizeP es

def pySizeL : PyList → Nat
  | .nil => 1
  | .cons v vs => 1 + pySize v + pySizeL vs

def pySizeP : PyPairs → Nat
  | .nil => 1
  | .cons k v ps => 1 + pySize k + pySize v + pySizeP ps

end

/-! Numeric range validation (`_tdbus_check_number` and the boundary
cache `_tdbus_init_check_number_cache`).  `isNumber` is CPython's
`PyNumber_Check` (true for int, long, float and bool — a Python 2 bool
is an int subtype); `numValue` is the exact numeric value used by
`PyObject_Compare` (which compares Python numbers exactly).  `intBounds`
holds the parsed boundary constants of `_tdbus_check_numbers`. -/

inductive NumCheck : Type where
  | ok
  | typeMismatch
  | rangeError
  | unknownType

def isNumber : PyValue → Bool
  | .int _ => true
  | .float _ => true
  | .bool _ => true
  | _ => false

def numValue : PyValue → Int
  | .int n => n
  | .float x => x
  | .bool b => if b then 1 else 0
  | _ => 0

def intBounds : Char → Option (Int × Int)
  | 'y' => some (0, 255)
  | 'q' => some (0, 65535)
  | 'u' => some (0, 4294967295)
  | 't' => some (0, 18446744073709551615)
  | 'n' => some (-32768, 32767)
  | 'i' => some (-2147483648, 2147483647)
  | 'x' => some (-9223372036854775808, 9223372036854775807)
  | _ => none

def _tdbus_check_number (v : PyValue) (t : Char) : NumCheck :=
  if isNumber v then
    match intBounds t with
    | none => .unknownType
    | some (lo, hi) => if numValue v < lo ∨ hi < numValue v then .rangeError else .ok
  else .typeMismatch

/-! Encoder error values, one per RETURN_ERROR site of
`_tdbus_message_append_arg` / `_tdbus_message_append_args`.
`outOfFuel` is an artifact of the fuel-based embedding; the wrappers
below supply enough fuel that it is never returned through them. -/

inductive EncErr : Type where
  | badSignature
  | tooFew
  | tooMany
  | typeMismatch
  | rangeError
  | invalidPath
  | invalidSignatureArg
  | invalidVariantSig
  | variantNotOneType
  | unknownFormat
  | outOfFuel

/-! `PyObject_IsTrue` for the value shapes that occur here. -/

def pyTruthy : PyValue → Bool
  | .int n => !(n == 0)
  | .float x => !(x == 0)
  | .bool b => b
  | .str s => !s.isEmpty
  | .uni s => !s.isEmpty
  | .tuple .nil => false
  | .tuple _ => true
  | .list .nil => false
  | .list _ => true
  | .dict .nil => false
  | .dict _ => true

/-! `PySequence_Check` plus item extraction, for the sequence shapes the
binding traffics in (tuples and lists; CPython also counts strings as
sequences of one-character strings, a corner no claim exercises). -/

def pySeqItems : PyValue → Option PyList
  | .tuple xs => some xs
  | .list xs => some xs
  | _ => none

/-! After each complete type, `_tdbus_message_append_args` (and
`_tdbus_check_signature`) skips one immediately following ')' or '}'. -/

def skipClose : List Char → List Char
  | [] => []
  | c :: r => if c = ')' ∨ c = '}' then r else c :: r

/-! The encoder (`_tdbus_message_append_arg` mutually with
`_tdbus_message_append_args`).  The two C functions, the per-element
array loop, and the dict-entry loop over `PyDict_Items` are the four
job kinds of one fuel-structural function, so that concrete runs reduce
definitionally.  `EncJob.entries` carries the element signature without
its leading '{'; each dict item is a 2-tuple appended through the
dict-entry case exactly as `_tdbus_message_append_arg` would.  All
container opens/closes of libdbus are modeled as always succeeding
(their failures are memory errors). -/

inductive EncJob : Type where
  | one (fmt : List Char) (v : PyValue)
  | seq (fmt : List Char) (vs : PyList)
  | elems (efmt : List Char) (vs : PyList)
  | entries (inner : List Char) (es : PyPairs)

inductive EncOut : Type where
  | one (w : WireVal)
  | many (ws : WireList)

def basicIntCase (arg : PyValue) (t : Char) (mk : Int → WireVal) : Except EncErr EncOut :=
  match _tdbus_check_number arg t with
  | .ok => .ok (.one (mk (numValue arg)))
  | .typeMismatch => .error .typeMismatch
  | .rangeError => .error .rangeError
  | .unknownType => .error .unknownFormat

def encDouble (arg : PyValue) : Except EncErr EncOut :=
  if isNumber arg then .ok (.one (.wDouble (numValue arg))) else .error .typeMismatch

def encPath (arg : PyValue) : Except EncErr EncOut :=
  match arg with
  | .str s => if _tdbus_check_path s then .ok (.one (.wObjectPath s)) else .error .invalidPath
  | _ => .error .typeMismatch

def encSigArg (arg : PyValue) : Except EncErr EncOut :=
  match arg with
  | .str s =>
    if _tdbus_check_signature s 0 0 then .ok (.one (.wSignature s))
    else .error .invalidSignatureArg
  | _ => .error .typeMismatch

def encString (arg : PyValue) : Except EncErr EncOut :=
  match arg with
  | .uni s => .ok (.one (.wString s))
  | .str s => .ok (.one (.wString s))
  | _ => .error .typeMismatch

def encContainer (rec : EncJob → Except EncErr EncOut) (rest : List Char)
    (arg : PyValue) (mk : WireList → WireVal) : Except EncErr EncOut :=
  match pySeqItems arg with
  | none => .error .typeMismatch
  | some items =>
    match rec (.seq rest items) with
    | .ok (.many ws) => .ok (.one (mk ws))
    | .ok (.one _) => .error .outOfFuel
    | .error e => .error e

def encArray (rec : EncJob → Except EncErr EncOut) (rest : List Char) (arg : PyValue) :
    Except EncErr EncOut :=
  match rest with
  | 'y' :: _ =>
    match arg with
    | .str s => .ok (.one (.wByteArray s))
    | _ => .error .typeMismatch
  | '{' :: inner =>
    match arg with
    | .dict es =>
      match rec (.entries inner es) with
      | .ok (.many ws) => .ok (.one (.wArray rest ws))
      | .ok (.one _) => .error .outOfFuel
      | .error e => .error e
    | _ => .error .typeMismatch
  | _ =>
    match pySeqItems arg with
    | none => .error .typeMismatch
    | some items =>
      match rec (.elems rest items) with
      | .ok (.many ws) => .ok (.one (.wArray rest ws))
      | .ok (.one _) => .error .outOfFuel
      | .error e => .error e

def encVariant (rec : EncJob → Except EncErr EncOut) (arg : PyValue) : Except EncErr EncOut :=
  match pySeqItems arg with
  | some (.cons t (.cons v .nil)) =>
    match t with
    | .str sig =>
      if _tdbus_check_signature sig 0 0 then
        match _tdbus_get_one_full_type sig with
        | some (_, []) =>
          match rec (.one sig v) with
          | .ok (.one w) => .ok (.one (.wVariant sig w))
          | .ok (.many _) => .error .outOfFuel
          | .error e => .error e
        | _ => .error .variantNotOneType
      else .error .invalidVariantSig
    | _ => .error .typeMismatch
  | _ => .error .typeMismatch

def encSeq (rec : EncJob → Except EncErr EncOut) (fmt : List Char) (args : PyList) :
    Except EncErr EncOut :=
  match fmt with
  | [] =>
    match args with
    | .nil => .ok (.many .nil)
    | _ => .error .tooMany
  | _ :: _ =>
    match _tdbus_get_one_full_type fmt with
    | none => .error .badSignature
    | some (t, rest) =>
      match args with
      | .nil => .error .tooFew
      | .cons arg args2 =>
        match rec (.one t arg) with
        | .ok (.one w) =>
          match rec (.seq (skipClose rest) args2) with
          | .ok (.many ws) => .ok (.many (.cons w ws))
          | .ok (.one _) => .error .outOfFuel
          | .error e => .error e
        | .ok (.many _) => .error .outOfFuel
        | .error e => .error e

def encElems (rec : EncJob → Except EncErr EncOut) (efmt : List Char) (vs : PyList) :
    Except EncErr EncOut :=
  match vs with
  | .nil => .ok (.many .nil)
  | .cons x xs =>
    match rec (.one efmt x) with
    | .ok (.one w) =>
      match rec (.elems efmt xs) with
      | .ok (.many ws) => .ok (.many (.cons w ws))
      | .ok (.one _) => .error .outOfFuel
      | .error e => .error e
    | .ok (.many _) => .error .outOfFuel
    | .error e => .error e

def encEntries (rec : EncJob → Except EncErr EncOut) (inner : List Char) (es : PyPairs) :
    Except EncErr EncOut :=
  match es with
  | .nil => .ok (.many .nil)
  | .cons k v es2 =>
    match rec (.seq inner (.cons k (.cons v .nil))) with
    | .ok (.many ws) =>
      match rec (.entries inner es2) with
      | .ok (.many rest) => .ok (.many (.cons (.wDictEntry ws) rest))
      | .ok (.one _) => .error .outOfFuel
      | .error e => .error e
    | .ok (.one _) => .error .outOfFuel
    | .error e => .error e

def encStep (rec : EncJob → Except EncErr EncOut) : EncJob → Except EncErr EncOut
  | .one fmt arg =>
    match fmt with
    | [] => .error .unknownFormat
    | c :: rest =>
      if c = 'y' then basicIntCase arg 'y' .wByte
      else if c = 'b' then .ok (.one (.wBool (pyTruthy arg)))
      else if c = 'n' then basicIntCase arg 'n' .wI16
      else if c = 'q' then basicIntCase arg 'q' .wU16
      else if c = 'i' then basicIntCase arg 'i' .wI32
      else if c = 'u' then basicIntCase arg 'u' .wU32
      else if c = 'x' then basicIntCase arg 'x' .wI64
      else if c = 't' then basicIntCase arg 't' .wU64
      else if c = 'd' then encDouble arg
      else if c = 'o' then encPath arg
      else if c = 'g' then encSigArg arg
      else if c = 's' then encString arg
      else if c = '(' then encContainer rec rest arg .wStruct
      else if c = '{' then encContainer rec rest arg .wDictEntry
      else if c = 'a' then encArray rec rest arg
      else if c = 'v' then encVariant rec arg
      else .error .unknownFormat
  | .seq fmt args => encSeq rec fmt args
  | .elems efmt vs => encElems rec efmt vs
  | .entries inner es => encEntries rec inner es

def encodeF : Nat → EncJob → Except EncErr EncOut
  | 0, _ => .error .outOfFuel
  | fuel + 1, job => encStep (encodeF fuel) job

theorem encStep_struct (rec : EncJob → Except EncErr EncOut) (rest : List Char)
    (arg : PyValue) : encStep rec (.one ('(' :: rest) arg) = encContainer rec rest arg .wStruct :=
  rfl

theorem encStep_array (rec : EncJob → Except EncErr EncOut) (rest : List Char)
    (arg : PyValue) : encStep rec (.one ('a' :: rest) arg) = encArray rec rest arg :=
  rfl

def _tdbus_message_append_arg (fmt : List Char) (arg : PyValue) : Except EncErr WireVal :=
  match encodeF (2 * (pySize arg + fmt.length) + 2) (.one fmt arg) with
  | .ok (.one w) => .ok w
  | .ok (.many _) => .error .outOfFuel
  | .error e => .error e

def _tdbus_message_append_args (fmt : List Char) (args : PyList) : Except EncErr WireList :=
  match encodeF (2 * (pySizeL args + fmt.length) + 3) (.seq fmt args) with
  | .ok (.many ws) => .ok ws
  | .ok (.one _) => .error .outOfFuel
  | .error e => .error e

/-! `tdbus_message_set_args`: validate the signature, then append. -/

def tdbus_message_set_args (fmt : List Char) (args : PyList) : Except EncErr WireList :=
  if _tdbus_check_signature fmt 0 0 then _tdbus_message_append_args fmt args
  else .error .badSignature

/-! `PyDict_SetItem` on the ordered association list modeling a PyDict:
replace the value at an existing (structurally equal) key, else append. -/

def dictSet : PyPairs → PyValue → PyValue → PyPairs
  | .nil, k, v => .cons k v .nil
  | .cons k2 v2 rest, k, v =>
    if pyEq k2 k then .cons k2 v rest else .cons k2 v2 (dictSet rest k v)

/-! The decoder (`_tdbus_message_read_arg` / `_tdbus_message_read_args`
and, split out from the array case of the former, the loop that folds
an array of dict-entries into a PyDict with `PyDict_SetItem`).  The C
reads a dict-entry by decoding the key, stepping the iterator (failing
with "illegal dict_entry" if there is no second element), decoding the
value, and building a 2-tuple; any further elements are never visited.
A dict-entry with no or one element and a dict item that is not a
2-tuple (the ASSERT in the array case) decode to `none`. -/

mutual

def _tdbus_message_read_arg : WireVal → Option PyValue
  | .wByte n => some (.int n)
  | .wBool b => some (.bool b)
  | .wI16 n => some (.int n)
  | .wU16 n => some (.int n)
  | .wI32 n => some (.int n)
  | .wU32 n => some (.int n)
  | .wI64 n => some (.int n)
  | .wU64 n => some (.int n)
  | .wDouble x => some (.float x)
  | .wString s => some (.uni s)
  | .wObjectPath s => some (.str s)
  | .wSignature s => some (.str s)
  | .wByteArray s => some (.str s)
  | .wStruct items =>
    match _tdbus_message_read_args items with
    | none => none
    | some vs => some (.tuple vs)
  | .wArray esig items =>
    match esig with
    | '{' :: _ =>
      match readDictFold items .nil with
      | none => none
      | some d => some (.dict d)
    | _ =>
      match _tdbus_message_read_args items with
      | none => none
      | some vs => some (.list vs)
  | .wDictEntry items =>
    match items with
    | .cons k (.cons v _) =>
      match _tdbus_message_read_arg k with
      | none => none
      | some pk =>
        match _tdbus_message_read_arg v with
        | none => none
        | some pv => some (.tuple (.cons pk (.cons pv .nil)))
    | _ => none
  | .wVariant vsig inner =>
    match _tdbus_message_read_arg inner with
    | none => none
    | some pv => some (.tuple (.cons (.str vsig) (.cons pv .nil)))

def _tdbus_message_read_args : WireList → Option PyList
  | .nil => some .nil
  | .cons w ws =>
    match _tdbus_message_read_arg w with
    | none => none
    | some p =>
      match _tdbus_message_read_args ws with
      | none => none
      | some ps => some (.cons p ps)

def readDictFold : WireList → PyPairs → Option PyPairs
  | .nil, acc => some acc
  | .cons w ws, acc =>
    match _tdbus_message_read_arg w with
    | some (.tuple (.cons k (.cons v .nil))) => readDictFold ws (dictSet acc k v)
    | _ => none

end

/-! `tdbus_message_get_args`: an empty body yields an empty tuple (the
`dbus_message_iter_init` false branch); otherwise the top-level read
loop runs, which on an empty iterator also yields the empty tuple. -/

def tdbus_message_get_args (body : WireList) : Option PyList :=
  _tdbus_message_read_args body

example :
    _tdbus_message_append_args (("ii").data) (.cons (.int 1) .nil) = .error .tooFew := rfl
example :
    _tdbus_message_append_args (("ii").data)
      (.cons (.int 1) (.cons (.int 2) (.cons (.int 3) .nil))) = .error .tooMany := rfl
example :
    _tdbus_message_append_args (("ii").data)
      (.cons (.uni (("x").data)) (.cons (.int 1) (.cons (.int 2) .nil)))
      = .error .typeMismatch := rfl
example : _tdbus_message_append_args [] .nil = .ok .nil := rfl
example : tdbus_message_set_args [] .nil = .ok .nil := rfl
example : tdbus_message_get_args .nil = some .nil := rfl
example :
    _tdbus_message_append_args (("i").data) (.cons (.int 3) .nil)
      = .ok (.cons (.wI32 3) .nil) := rfl
example :
    tdbus_message_get_args (.cons (.wI32 3) .nil) = some (.cons (.int 3) .nil) := rfl
example :
    _tdbus_message_read_arg (.wDictEntry (.cons (.wByte 1) (.cons (.wByte 2)
      (.cons (.wByte 3) .nil)))) = some (.tuple (.cons (.int 1) (.cons (.int 2) .nil))) := rfl
example : _tdbus_message_read_arg (.wDictEntry (.cons (.wByte 7) .nil)) = none := rfl
example :
    _tdbus_message_append_arg (("y").data) (.int 255) = .ok (.wByte 255) := rfl
example :
    _tdbus_message_append_arg (("y").data) (.int 256) = .error .rangeError := rfl
example :
    _tdbus_message_append_arg (("q").data) (.int (-1)) = .error .rangeError := rfl
example :
    _tdbus_message_append_arg (("n").data) (.int 32767) = .ok (.wI16 32767) := rfl
example :
    _tdbus_message_append_arg (("n").data) (.int 32768) = .error .rangeError := rfl
example :
    _tdbus_message_append_arg (("v").data)
      (.tuple (.cons (.str (("ii").data)) (.cons (.int 1) .nil)))
      = .error .variantNotOneType := rfl
example :
    _tdbus_message_append_arg (("a{si}").data)
      (.dict (.cons (.uni (("k").data)) (.int 5) .nil))
      = .ok (.wArray (("{si}").data)
          (.cons (.wDictEntry (.cons (.wString (("k").data)) (.cons (.wI32 5) .nil))) .nil)) := rfl
example :
    _tdbus_message_read_arg (.wArray (("{si}").data)
      (.cons (.wDictEntry (.cons (.wString (("k").data)) (.cons (.wI32 5) .nil))) .nil))
      = some (.dict (.cons (.uni (("k").data)) (.int 5) .nil)) := rfl

/-! Key freshness and distinctness for PyDict association lists, in the
orientation `PyDict_SetItem` uses (existing key compared against the
inserted key). -/

def keyFresh : PyPairs → PyValue → Bool
  | .nil, _ => true
  | .cons k2 _ ps, k => !(pyEq k2 k) && keyFresh ps k

def keyAbsent (k : PyValue) : PyPairs → Bool
  | .nil => true
  | .cons k2 _ ps => !(pyEq k k2) && keyAbsent k ps

def keysDistinctP : PyPairs → Bool
  | .nil => true
  | .cons k _ ps => keyAbsent k ps && keysDistinctP ps

def appendP : PyPairs → PyPairs → PyPairs
  | .nil, q => q
  | .cons k v ps, q => .cons k v (appendP ps q)

def dictFoldIns : PyPairs → PyPairs → PyPairs
  | acc, .nil => acc
  | acc, .cons k v es => dictFoldIns (dictSet acc k v) es

/-! Which value trees match a signature for the purpose of the
round-trip property.  The shapes follow the data model of the spec
(section 3): integers within the wire width, booleans for 'b', floats
for 'd', unicode strings for 's', byte strings for 'o'/'g' subject to
their validators, tuples for structs and dict entries, a byte-string
buffer for an array of bytes, lists for other arrays, dicts with
structurally distinct keys for arrays of dict entries (dict entries
only as array elements, with exactly a key type and a value type, as
the spec's invariants require), and a (signature, value) 2-tuple for a
variant whose signature is valid and is exactly one complete type. -/

mutual

inductive Matches : List Char → PyValue → Prop where
  | mByte (n : Int) : 0 ≤ n → n ≤ 255 → Matches [ 'y' ] (.int n)
  | mBool (b : Bool) : Matches [ 'b' ] (.bool b)
  | mI16 (n : Int) : -32768 ≤ n → n ≤ 32767 → Matches [ 'n' ] (.int n)
  | mU16 (n : Int) : 0 ≤ n → n ≤ 65535 → Matches [ 'q' ] (.int n)
  | mI32 (n : Int) : -2147483648 ≤ n → n ≤ 2147483647 → Matches [ 'i' ] (.int n)
  | mU32 (n : Int) : 0 ≤ n → n ≤ 4294967295 → Matches [ 'u' ] (.int n)
  | mI64 (n : Int) :
      -9223372036854775808 ≤ n → n ≤ 9223372036854775807 → Matches [ 'x' ] (.int n)
  | mU64 (n : Int) : 0 ≤ n → n ≤ 18446744073709551615 → Matches [ 't' ] (.int n)
  | mDouble (x : Int) : Matches [ 'd' ] (.float x)
  | mString (s : List Char) : Matches [ 's' ] (.uni s)
  | mObjectPath (s : List Char) : _tdbus_check_path s = true → Matches [ 'o' ] (.str s)
  | mSignature (s : List Char) :
      _tdbus_check_signature s 0 0 = true → Matches [ 'g' ] (.str s)
  | mStruct (rest : List Char) (items : PyList) :
      MatchesSeq rest items → Matches ('(' :: rest) (.tuple items)
  | mByteArray (s : List Char) : Matches ['a', 'y'] (.str s)
  | mListArray (es : List Char) (items : PyList) :
      es.head? ≠ some 'y' → es.head? ≠ some '{' →
      MatchesElems es items → Matches ('a' :: es) (.list items)
  | mDictArray (kt vt : List Char) (es : PyPairs) :
      _tdbus_get_one_full_type (kt ++ vt ++ [ '}' ]) = some (kt, vt ++ [ '}' ]) →
      _tdbus_get_one_full_type (vt ++ [ '}' ]) = some (vt, [ '}' ]) →
      MatchesEntries kt vt es →
      keysDistinctP es = true →
      Matches ('a' :: '{' :: (kt ++ vt ++ [ '}' ])) (.dict es)
  | mVariant (sig : List Char) (v : PyValue) :
      _tdbus_check_signature sig 0 0 = true →
      _tdbus_get_one_full_type sig = some (sig, []) →
      Matches sig v →
      Matches [ 'v' ] (.tuple (.cons (.str sig) (.cons v .nil)))

inductive MatchesSeq : List Char → PyList → Prop where
  | nil : MatchesSeq [] .nil
  | cons (fmt t rest : List Char) (v : PyValue) (vs : PyList) :
      _tdbus_get_one_full_type fmt = some (t, rest) →
      Matches t v →
      MatchesSeq (skipClose rest) vs →
      MatchesSeq fmt (.cons v vs)

inductive MatchesElems : List Char → PyList → Prop where
  | nil (es : List Char) : MatchesElems es .nil
  | cons (es : List Char) (v : PyValue) (vs : PyList) :
      Matches es v → MatchesElems es vs → MatchesElems es (.cons v vs)

inductive MatchesEntries : List Char → List Char → PyPairs → Prop where
  | nil (kt vt : List Char) : MatchesEntries kt vt .nil
  | cons (kt vt : List Char) (k v : PyValue) (ps : PyPairs) :
      Matches kt k → Matches vt v → MatchesEntries kt vt ps →
      MatchesEntries kt vt (.cons k v ps)

end

/-! Helper lemmas: sizes are positive, a parsed complete type is a
nonempty prefix, `skipClose` does not lengthen, and the first character
of a matched type is never a closing character. -/

theorem pySize_pos (v : PyValue) : 1 ≤ pySize v := by
  cases v <;> simp [pySize]

theorem pySizeL_pos (vs : PyList) : 1 ≤ pySizeL vs := by
  cases vs with
  | nil => simp [pySizeL]
  | cons v vs => simp only [pySizeL]; omega

theorem pySizeP_pos (ps : PyPairs) : 1 ≤ pySizeP ps := by
  cases ps with
  | nil => simp [pySizeP]
  | cons k v ps => simp only [pySizeP]; omega

theorem scanClose_append (o c : Char) :
    ∀ (cs : List Char) (d : Nat) (t rest : List Char),
      scanClose o c d cs = some (t, rest) → t ++ rest = cs := by
  intro cs
  induction cs with
  | nil =>
    intro d t rest h
    cases d with
    | zero => simp [scanClose] at h; simp [h.1, h.2]
    | succ d => simp [scanClose] at h
  | cons x xs ih =>
    intro d t rest h
    cases d with
    | zero => simp [scanClose] at h; simp [h.1, h.2]
    | succ d =>
      simp only [scanClose] at h
      cases hrec : scanClose o c (if x = o then d + 2 else if x = c then d else d + 1) xs with
      | none => rw [hrec] at h; simp at h
      | some pr =>
        rw [hrec] at h
        simp only [Option.some.injEq, Prod.mk.injEq] at h
        obtain ⟨h1, h2⟩ := h
        have := ih _ _ _ hrec
        subst h1; subst h2
        simp [← this]

theorem getOneFullType_split :
    ∀ (fmt t rest : List Char),
      _tdbus_get_one_full_type fmt = some (t, rest) → t ++ rest = fmt ∧ t ≠ [] := by
  intro fmt
  induction fmt with
  | nil => intro t rest h; simp [_tdbus_get_one_full_type] at h
  | cons x xs ih =>
    intro t rest h
    by_cases hx : x = 'a'
    · subst hx
      simp only [_tdbus_get_one_full_type] at h
      cases hrec : _tdbus_get_one_full_type xs with
      | none => rw [hrec] at h; simp at h
      | some pr =>
        rw [hrec] at h
        simp only [Option.some.injEq, Prod.mk.injEq] at h
        obtain ⟨h1, h2⟩ := h
        have := ih pr.1 pr.2 (by rw [hrec])
        subst h1; subst h2
        simp [← this.1]
    · by_cases hx2 : x = '('
      · subst hx2
        simp only [_tdbus_get_one_full_type] at h
        cases hrec : scanClose '(' ')' 1 xs with
        | none => rw [hrec] at h; simp at h
        | some pr =>
          rw [hrec] at h
          simp only [Option.some.injEq, Prod.mk.injEq] at h
          obtain ⟨h1, h2⟩ := h
          have := scanClose_append '(' ')' xs 1 pr.1 pr.2 (by rw [hrec])
          subst h1; subst h2
          simp [← this]
      · by_cases hx3 : x = '{'
        · subst hx3
          simp only [_tdbus_get_one_full_type] at h
          cases hrec : scanClose '{' '}' 1 xs with
          | none => rw [hrec] at h; simp at h
          | some pr =>
            rw [hrec] at h
            simp only [Option.some.injEq, Prod.mk.injEq] at h
            obtain ⟨h1, h2⟩ := h
            have := scanClose_append '{' '}' xs 1 pr.1 pr.2 (by rw [hrec])
            subst h1; subst h2
            simp [← this]
        · have heq : _tdbus_get_one_full_type (x :: xs) = some ([x], xs) := by
            simp only [_tdbus_get_one_full_type]
          rw [heq] at h
          simp only [Option.some.injEq, Prod.mk.injEq] at h
          obtain ⟨h1, h2⟩ := h
          subst h1; subst h2
          simp

theorem skipClose_length (l : List Char) : (skipClose l).length ≤ l.length := by
  cases l with
  | nil => simp [skipClose]
  | cons c r =>
    simp only [skipClose]
    split <;> simp

theorem matches_head_not_closer {fmt : List Char} {v : PyValue} (h : Matches fmt v) :
    ∃ c rest, fmt = c :: rest ∧ c ≠ ')' ∧ c ≠ '}' := by
  cases h <;> exact ⟨_, _, rfl, by decide, by decide⟩

/-! Folding `PyDict_SetItem` over entries with pairwise distinct keys
(each earlier key structurally different from each later key) rebuilds
exactly the entry list: every insertion of a fresh key appends. -/

def freshAll (acc : PyPairs) : PyPairs → Bool
  | .nil => true
  | .cons k _ es => keyFresh acc k && freshAll acc es

theorem appendP_nil : ∀ (a : PyPairs), appendP a .nil = a
  | .nil => rfl
  | .cons k v ps => by simp [appendP, appendP_nil ps]

theorem appendP_assoc : ∀ (a : PyPairs) (b c : PyPairs),
    appendP (appendP a b) c = appendP a (appendP b c)
  | .nil, b, c => rfl
  | .cons k v ps, b, c => by simp [appendP, appendP_assoc ps b c]

theorem dictSet_fresh : ∀ (acc : PyPairs) (k v : PyValue), keyFresh acc k = true →
    dictSet acc k v = appendP acc (.cons k v .nil)
  | .nil, k, v => fun _ => rfl
  | .cons k2 v2 ps, k, v => by
    intro h
    simp only [keyFresh, Bool.and_eq_true, Bool.not_eq_true'] at h
    simp only [dictSet, appendP, h.1, Bool.false_eq_true, if_false]
    rw [dictSet_fresh ps k v h.2]

theorem keyFresh_appendP : ∀ (a b : PyPairs) (k : PyValue),
    keyFresh (appendP a b) k = (keyFresh a k && keyFresh b k)
  | .nil, b, k => by simp [appendP, keyFresh]
  | .cons k2 v2 ps, b, k => by
    simp [appendP, keyFresh, keyFresh_appendP ps b k, Bool.and_assoc]

theorem freshAll_append_single : ∀ (acc : PyPairs) (k v : PyValue) (es : PyPairs),
    freshAll acc es = true → keyAbsent k es = true →
    freshAll (appendP acc (.cons k v .nil)) es = true
  | _, _, _, .nil => fun _ _ => rfl
  | acc, k, v, .cons k2 v2 ps => by
    intro h1 h2
    simp only [freshAll, Bool.and_eq_true] at h1
    simp only [keyAbsent, Bool.and_eq_true, Bool.not_eq_true'] at h2
    simp only [freshAll, keyFresh_appendP, keyFresh, h2.1, Bool.and_eq_true]
    exact ⟨⟨h1.1, by simp⟩, freshAll_append_single acc k v ps h1.2 h2.2⟩

theorem freshAll_nil_acc : ∀ (es : PyPairs), freshAll .nil es = true
  | .nil => rfl
  | .cons k v ps => by simp [freshAll, keyFresh, freshAll_nil_acc ps]

theorem dictFoldIns_append : ∀ (es : PyPairs) (acc : PyPairs),
    keysDistinctP es = true → freshAll acc es = true →
    dictFoldIns acc es = appendP acc es
  | .nil, acc => by intro _ _; simp [dictFoldIns, appendP_nil]
  | .cons k v ps, acc => by
    intro hd hf
    simp only [keysDistinctP, Bool.and_eq_true] at hd
    simp only [freshAll, Bool.and_eq_true] at hf
    simp only [dictFoldIns]
    rw [dictSet_fresh acc k v hf.1,
      dictFoldIns_append ps _ hd.2 (freshAll_append_single acc k v ps hf.2 hd.1),
      appendP_assoc]
    rfl

theorem dictFoldIns_id (es : PyPairs) (hd : keysDistinctP es = true) :
    dictFoldIns .nil es = es := by
  rw [dictFoldIns_append es .nil hd (freshAll_nil_acc es)]
  rfl

/-! Inversion of the top-level read loop. -/

theorem read_args_cons_inv {ws : WireList} {p : PyValue} {ps : PyList}
    (h : _tdbus_message_read_args ws = some (.cons p ps)) :
    ∃ a ws2, ws = .cons a ws2 ∧ _tdbus_message_read_arg a = some p ∧
      _tdbus_message_read_args ws2 = some ps := by
  cases ws with
  | nil => simp [_tdbus_message_read_args] at h
  | cons a ws2 =>
    simp only [_tdbus_message_read_args] at h
    cases ha : _tdbus_message_read_arg a with
    | none => rw [ha] at h; simp at h
    | some q =>
      rw [ha] at h
      cases hr : _tdbus_message_read_args ws2 with
      | none => rw [hr] at h; simp at h
      | some qs =>
        rw [hr] at h
        simp only [Option.some.injEq, PyList.cons.injEq] at h
        exact ⟨a, ws2, rfl, by rw [ha, h.1], by rw [hr, h.2]⟩

theorem read_args_nil_inv {ws : WireList} (h : _tdbus_message_read_args ws = some .nil) :
    ws = .nil := by
  cases ws with
  | nil => rfl
  | cons a ws2 =>
    simp only [_tdbus_message_read_args] at h
    cases ha : _tdbus_message_read_arg a with
    | none => rw [ha] at h; simp at h
    | some q =>
      rw [ha] at h
      cases hr : _tdbus_message_read_args ws2 with
      | none => rw [hr] at h; simp at h
      | some qs => rw [hr] at h; simp at h

/-! A basic integer type within its bounds passes the range check. -/

theorem basicIntCase_ok (t : Char) (mk : Int → WireVal) (n lo hi : Int)
    (hb : intBounds t = some (lo, hi)) (h1 : lo ≤ n) (h2 : n ≤ hi) :
    basicIntCase (.int n) t mk = .ok (.one (mk n)) := by
  have hc : ¬(n < lo ∨ hi < n) := by omega
  simp [basicIntCase, _tdbus_check_number, isNumber, numValue, hb, hc]

/-! Array encoding and decoding for a generic element type (first
character neither a byte nor a dict-entry opener). -/

theorem encArray_list_ok (rec : EncJob → Except EncErr EncOut) (c : Char) (cs : List Char)
    (items : PyList) (ws : WireList) (h1 : c ≠ 'y') (h2 : c ≠ '{')
    (h3 : rec (.elems (c :: cs) items) = .ok (.many ws)) :
    encArray rec (c :: cs) (.list items) = .ok (.one (.wArray (c :: cs) ws)) := by
  simp only [encArray, pySeqItems, h3]
  split <;> first | rfl | simp_all

/-! The round-trip invariant, proved by strong induction on the fuel:
a matching value encodes successfully (the fuel bounds mirror how every
recursive call of `encodeF` decreases size-plus-format-length), and the
produced wire value decodes back to exactly the input value. -/

set_option maxHeartbeats 1000000 in
theorem encodeF_roundtrip (fuel : Nat) :
    (∀ fmt v, Matches fmt v → 2 * (pySize v + fmt.length) + 2 ≤ fuel →
      ∃ w, encodeF fuel (.one fmt v) = .ok (.one w) ∧
        _tdbus_message_read_arg w = some v) ∧
    (∀ fmt vs, MatchesSeq fmt vs → 2 * (pySizeL vs + fmt.length) + 3 ≤ fuel →
      ∃ ws, encodeF fuel (.seq fmt vs) = .ok (.many ws) ∧
        _tdbus_message_read_args ws = some vs) ∧
    (∀ efmt vs, MatchesElems efmt vs → 2 * (pySizeL vs + efmt.length) + 3 ≤ fuel →
      ∃ ws, encodeF fuel (.elems efmt vs) = .ok (.many ws) ∧
        _tdbus_message_read_args ws = some vs) ∧
    (∀ kt vt es, MatchesEntries kt vt es →
      _tdbus_get_one_full_type (kt ++ vt ++ [ '}' ]) = some (kt, vt ++ [ '}' ]) →
      _tdbus_get_one_full_type (vt ++ [ '}' ]) = some (vt, [ '}' ]) →
      2 * (pySizeP es + (kt ++ vt ++ [ '}' ]).length) + 7 ≤ fuel →
      ∃ ws, encodeF fuel (.entries (kt ++ vt ++ [ '}' ]) es) = .ok (.many ws) ∧
        ∀ acc, readDictFold ws acc = some (dictFoldIns acc es)) := by
  induction fuel using Nat.strong_induction_on with
  | _ fuel IH =>
  refine ⟨?_, ?_, ?_, ?_⟩
  · intro fmt v hm hb
    obtain ⟨f, rfl⟩ : ∃ f, fuel = f + 1 := ⟨fuel - 1, by omega⟩
    cases hm with
    | mByte n h1 h2 =>
      refine ⟨.wByte n, ?_, rfl⟩
      simp only [encodeF, encStep]
      exact basicIntCase_ok 'y' .wByte n 0 255 rfl h1 h2
    | mBool b =>
      refine ⟨.wBool b, ?_, rfl⟩
      simp [encodeF, encStep, pyTruthy]
    | mI16 n h1 h2 =>
      refine ⟨.wI16 n, ?_, rfl⟩
      simp only [encodeF, encStep]
      exact basicIntCase_ok 'n' .wI16 n (-32768) 32767 rfl h1 h2
    | mU16 n h1 h2 =>
      refine ⟨.wU16 n, ?_, rfl⟩
      simp only [encodeF, encStep]
      exact basicIntCase_ok 'q' .wU16 n 0 65535 rfl h1 h2
    | mI32 n h1 h2 =>
      refine ⟨.wI32 n, ?_, rfl⟩
      simp only [encodeF, encStep]
      exact basicIntCase_ok 'i' .wI32 n (-2147483648) 2147483647 rfl h1 h2
    | mU32 n h1 h2 =>
      refine ⟨.wU32 n, ?_, rfl⟩
      simp only [encodeF, encStep]
      exact basicIntCase_ok 'u' .wU32 n 0 4294967295 rfl h1 h2
    | mI64 n h1 h2 =>
      refine ⟨.wI64 n, ?_, rfl⟩
      simp only [encodeF, encStep]
      exact basicIntCase_ok 'x' .wI64 n (-9223372036854775808) 9223372036854775807 rfl h1 h2
    | mU64 n h1 h2 =>
      refine ⟨.wU64 n, ?_, rfl⟩
      simp only [encodeF, encStep]
      exact basicIntCase_ok 't' .wU64 n 0 18446744073709551615 rfl h1 h2
    | mDouble x =>
      refine ⟨.wDouble x, ?_, rfl⟩
      simp [encodeF, encStep, encDouble, isNumber, numValue]
    | mString s =>
      refine ⟨.wString s, ?_, rfl⟩
      simp [encodeF, encStep, encString]
    | mObjectPath s hp =>
      refine ⟨.wObjectPath s, ?_, rfl⟩
      simp [encodeF, encStep, encPath, hp]
    | mSignature s hs =>
      refine ⟨.wSignature s, ?_, rfl⟩
      simp [encodeF, encStep, encSigArg, hs]
    | mStruct rest items hseq =>
      have hbound : 2 * (pySizeL items + rest.length) + 3 ≤ f := by
        simp only [pySize, List.length_cons] at hb; omega
      obtain ⟨ws, henc, hdec⟩ := (IH f (by omega)).2.1 rest items hseq hbound
      refine ⟨.wStruct ws, ?_, ?_⟩
      · simp only [encodeF, encStep_struct, encContainer, pySeqItems, henc]
      · simp only [_tdbus_message_read_arg, hdec]
    | mByteArray s =>
      refine ⟨.wByteArray s, ?_, rfl⟩
      simp [encodeF, encStep, encArray]
    | mListArray es items hy hbr helems =>
      have hbound : 2 * (pySizeL items + es.length) + 3 ≤ f := by
        simp only [pySize, List.length_cons] at hb; omega
      obtain ⟨ws, henc, hdec⟩ := (IH f (by omega)).2.2.1 es items helems hbound
      refine ⟨.wArray es ws, ?_, ?_⟩
      · cases es with
        | nil => simp only [encodeF, encStep_array, encArray, pySeqItems, henc]
        | cons c cs =>
          have hcy : c ≠ 'y' := by simpa using hy
          have hcb : c ≠ '{' := by simpa using hbr
          simp only [encodeF, encStep_array]
          exact encArray_list_ok (encodeF f) c cs items ws hcy hcb henc
      · cases es with
        | nil => simp only [_tdbus_message_read_arg, hdec]
        | cons c cs =>
          have hcb : c ≠ '{' := by simpa using hbr
          simp only [_tdbus_message_read_arg]
          split <;> simp_all [hdec]
    | mDictArray kt vt es hk hv hent hdist =>
      have hbound : 2 * (pySizeP es + (kt ++ vt ++ [ '}' ]).length) + 7 ≤ f := by
        simp only [pySize, List.length_cons] at hb; omega
      obtain ⟨ws, henc, hdec⟩ := (IH f (by omega)).2.2.2 kt vt es hent hk hv hbound
      refine ⟨.wArray ('{' :: (kt ++ vt ++ [ '}' ])) ws, ?_, ?_⟩
      · simp only [encodeF, encStep_array, encArray]
        rw [henc]
      · simp only [_tdbus_message_read_arg, hdec]
        rw [dictFoldIns_id es hdist]
    | mVariant sig v2 hsig hone hm2 =>
      have hbound : 2 * (pySize v2 + sig.length) + 2 ≤ f := by
        simp only [pySize, pySizeL, List.length_cons] at hb; omega
      obtain ⟨w2, henc, hdec⟩ := (IH f (by omega)).1 sig v2 hm2 hbound
      refine ⟨.wVariant sig w2, ?_, ?_⟩
      · simp [encodeF, encStep, encVariant, pySeqItems, hsig, hone, henc]
      · simp only [_tdbus_message_read_arg, hdec]
  · intro fmt vs hm hb
    obtain ⟨f, rfl⟩ : ∃ f, fuel = f + 1 := ⟨fuel - 1, by omega⟩
    cases hm with
    | nil =>
      refine ⟨.nil, ?_, rfl⟩
      simp [encodeF, encStep, encSeq]
    | cons fmtc t rest v vs2 hparse hmv hmrest =>
      have hsplit := getOneFullType_split fmt t rest hparse
      have hlen : t.length + rest.length = fmt.length := by
        rw [← hsplit.1]; simp
      have ht1 : 0 < t.length := List.length_pos.mpr hsplit.2
      cases fmt with
      | nil => simp [_tdbus_get_one_full_type] at hparse
      | cons c fmt2 =>
        have hb1 : 2 * (pySize v + t.length) + 2 ≤ f := by
          have := pySizeL_pos vs2
          simp only [pySizeL, List.length_cons] at hb hlen
          omega
        obtain ⟨w, hencw, hdecw⟩ := (IH f (by omega)).1 t v hmv hb1
        have hb2 : 2 * (pySizeL vs2 + (skipClose rest).length) + 3 ≤ f := by
          have hsl := skipClose_length rest
          have := pySize_pos v
          simp only [pySizeL, List.length_cons] at hb hlen
          omega
        obtain ⟨ws, hencws, hdecws⟩ := (IH f (by omega)).2.1 (skipClose rest) vs2 hmrest hb2
        refine ⟨.cons w ws, ?_, ?_⟩
        · simp only [encodeF, encStep, encSeq, hparse, hencw, hencws]
        · simp only [_tdbus_message_read_args, hdecw, hdecws]
  · intro efmt vs hm hb
    obtain ⟨f, rfl⟩ : ∃ f, fuel = f + 1 := ⟨fuel - 1, by omega⟩
    cases hm with
    | nil =>
      refine ⟨.nil, ?_, rfl⟩
      simp [encodeF, encStep, encElems]
    | cons efmtc v vs2 hmv hmrest =>
      have hb1 : 2 * (pySize v + efmt.length) + 2 ≤ f := by
        have := pySizeL_pos vs2
        simp only [pySizeL] at hb
        omega
      obtain ⟨w, hencw, hdecw⟩ := (IH f (by omega)).1 efmt v hmv hb1
      have hb2 : 2 * (pySizeL vs2 + efmt.length) + 3 ≤ f := by
        have := pySize_pos v
        simp only [pySizeL] at hb
        omega
      obtain ⟨ws, hencws, hdecws⟩ := (IH f (by omega)).2.2.1 efmt vs2 hmrest hb2
      refine ⟨.cons w ws, ?_, ?_⟩
      · simp only [encodeF, encStep, encElems, hencw, hencws]
      · simp only [_tdbus_message_read_args, hdecw, hdecws]
  · intro kt vt es hm hk hv hb
    obtain ⟨f, rfl⟩ : ∃ f, fuel = f + 1 := ⟨fuel - 1, by omega⟩
    cases hm with
    | nil =>
      refine ⟨.nil, ?_, fun acc => rfl⟩
      simp [encodeF, encStep, encEntries]
    | cons ktc vtc k v ps hmk hmv hmps =>
      obtain ⟨c, vrest, hvc, hc1, hc2⟩ := matches_head_not_closer hmv
      have hskip : skipClose (vt ++ [ '}' ]) = vt ++ [ '}' ] := by
        rw [hvc]
        simp [skipClose, hc1, hc2]
      have hseq : MatchesSeq (kt ++ vt ++ [ '}' ]) (.cons k (.cons v .nil)) := by
        refine MatchesSeq.cons _ kt (vt ++ [ '}' ]) k _ hk hmk ?_
        rw [hskip]
        exact MatchesSeq.cons _ vt [ '}' ] v _ hv hmv MatchesSeq.nil
      have hb1 : 2 * (pySizeL (.cons k (.cons v .nil)) + (kt ++ vt ++ [ '}' ]).length) + 3 ≤ f := by
        have := pySizeP_pos ps
        simp only [pySizeL, pySizeP] at hb ⊢
        omega
      obtain ⟨ws2, henc2, hdec2⟩ := (IH f (by omega)).2.1 (kt ++ vt ++ [ '}' ]) _ hseq hb1
      have hb2 : 2 * (pySizeP ps + (kt ++ vt ++ [ '}' ]).length) + 7 ≤ f := by
        have := pySize_pos k
        have := pySize_pos v
        simp only [pySizeP] at hb
        omega
      obtain ⟨wsR, hencR, hdecR⟩ := (IH f (by omega)).2.2.2 kt vt ps hmps hk hv hb2
      obtain ⟨a, ws3, rfl, ha, hrest3⟩ := read_args_cons_inv hdec2
      obtain ⟨b, ws4, rfl, hbv, hrest4⟩ := read_args_cons_inv hrest3
      have hnil : ws4 = .nil := read_args_nil_inv hrest4
      subst hnil
      refine ⟨.cons (.wDictEntry (.cons a (.cons b .nil))) wsR, ?_, ?_⟩
      · simp only [encodeF, encStep, encEntries, henc2, hencR]
      · intro acc
        simp only [readDictFold, _tdbus_message_read_arg, ha, hbv]
        rw [hdecR (dictSet acc k v)]
        rfl

/-! Structural equality coincides with propositional equality on the
`PyValue` family (the BEq instances on `Int`, `Bool` and `List Char` are
lawful, and the recursion is structural). -/

mutual

theorem pyEq_eq : ∀ (a b : PyValue), pyEq a b = true ↔ a = b
  | .int n, b => by cases b <;> simp [pyEq]
  | .float x, b => by cases b <;> simp [pyEq]
  | .bool x, b => by cases b <;> simp [pyEq]
  | .str s, b => by cases b <;> simp [pyEq]
  | .uni s, b => by cases b <;> simp [pyEq]
  | .tuple xs, b => by
    cases b <;> simp [pyEq]
    exact pyEqL_eq xs _
  | .list xs, b => by
    cases b <;> simp [pyEq]
    exact pyEqL_eq xs _
  | .dict es, b => by
    cases b <;> simp [pyEq]
    exact pyEqP_eq es _

theorem pyEqL_eq : ∀ (a b : PyList), pyEqL a b = true ↔ a = b
  | .nil, b => by cases b <;> simp [pyEqL]
  | .cons x xs, b => by
    cases b <;> simp [pyEqL]
    exact and_congr (pyEq_eq x _) (pyEqL_eq xs _)

theorem pyEqP_eq : ∀ (a b : PyPairs), pyEqP a b = true ↔ a = b
  | .nil, b => by cases b <;> simp [pyEqP]
  | .cons k v ps, b => by
    cases b <;> simp [pyEqP]
    rw [and_assoc]
    exact and_congr (pyEq_eq k _) (and_congr (pyEq_eq v _) (pyEqP_eq ps _))

end

/-! PyDict lookup (on the association-list model, first match; `dictSet`
keeps keys unique, so first match is the only match) and the value of
the last occurrence of a key in an entry sequence. -/

def dictFind : PyPairs → PyValue → Option PyValue
  | .nil, _ => none
  | .cons k2 v ps, k => if pyEq k2 k then some v else dictFind ps k

def lastVal : PyPairs → PyValue → Option PyValue
  | .nil, _ => none
  | .cons k2 v ps, k =>
    match lastVal ps k with
    | some v2 => some v2
    | none => if pyEq k2 k then some v else none

theorem dictFind_dictSet : ∀ (d : PyPairs) (k v k2 : PyValue),
    dictFind (dictSet d k v) k2 = if pyEq k k2 then some v else dictFind d k2
  | .nil, k, v, k2 => by simp [dictSet, dictFind]
  | .cons ka va ps, k, v, k2 => by
    by_cases h : pyEq ka k = true
    · have hk : ka = k := (pyEq_eq ka k).mp h
      subst hk
      simp only [dictSet, h, if_true, dictFind]
      by_cases h2 : pyEq ka k2 = true <;> simp [h2]
    · simp only [dictSet, h, Bool.false_eq_true, if_false, dictFind]
      by_cases h2 : pyEq ka k2 = true
      · have hk2 : ka = k2 := (pyEq_eq ka k2).mp h2
        subst hk2
        have hkk : ¬ pyEq k ka = true := fun hc => h (by
          rw [(pyEq_eq ka k).mpr ((pyEq_eq k ka).mp hc).symm])
        simp [h2, hkk]
      · simp [h2, dictFind_dictSet ps k v k2]

theorem dictFind_foldIns : ∀ (es acc : PyPairs) (k : PyValue),
    dictFind (dictFoldIns acc es) k =
      match lastVal es k with
      | some v => some v
      | none => dictFind acc k
  | .nil, acc, k => by simp [dictFoldIns, lastVal]
  | .cons k2 v ps, acc, k => by
    simp only [dictFoldIns, lastVal]
    rw [dictFind_foldIns ps (dictSet acc k2 v) k]
    cases hl : lastVal ps k with
    | some v2 => simp
    | none =>
      simp only [dictFind_dictSet]
      by_cases h : pyEq k2 k = true <;> simp [h]

/-- A wire list whose every element decodes to a (key, value) 2-tuple,
related to the resulting entry sequence in wire order. -/
inductive DecEntries : WireList → PyPairs → Prop where
  | nil : DecEntries .nil .nil
  | cons (w : WireVal) (ws : WireList) (k v : PyValue) (ps : PyPairs) :
      _tdbus_message_read_arg w = some (.tuple (.cons k (.cons v .nil))) →
      DecEntries ws ps →
      DecEntries (.cons w ws) (.cons k v ps)

theorem readDictFold_entries {ws : WireList} {es : PyPairs} (h : DecEntries ws es) :
    ∀ acc, readDictFold ws acc = some (dictFoldIns acc es) := by
  induction h with
  | nil => intro acc; rfl
  | cons w ws k v ps hw hrest ih =>
    intro acc
    simp only [readDictFold, hw]
    exact ih (dictSet acc k v)

/-! The range check, characterized per integer format character. -/

theorem check_number_ok_iff (v : PyValue) (t : Char) (lo hi : Int)
    (hb : intBounds t = some (lo, hi)) :
    _tdbus_check_number v t = .ok ↔
      isNumber v = true ∧ lo ≤ numValue v ∧ numValue v ≤ hi := by
  cases hn : isNumber v with
  | false => simp [_tdbus_check_number, hn]
  | true =>
    by_cases hc : numValue v < lo ∨ hi < numValue v <;>
      simp [_tdbus_check_number, hn, hb, hc] <;> omega

/-! Grammar-level characterizations of the identifier validators,
written from the spec's wording so the validators can be compared
against them. -/

def segChar (c : Char) : Bool := isAlnumC c || c == '_'

mutual

/-- Following the spec's wording: one nonempty alphanumeric-or-underscore
segment, optionally followed by a slash and further segments. -/
def segsOk : List Char → Bool
  | [] => false
  | c :: rest => segChar c && segTail rest

/-- Following the spec's wording: the continuation of a segment, which may
end, continue with a segment character, or start a new segment after a
slash. -/
def segTail : List Char → Bool
  | [] => true
  | c :: rest => if c = '/' then segsOk rest else segChar c && segTail rest

end

/-- Following the spec's wording: an object path is `/`-separated
alphanumeric-or-underscore segments with no empty segments and no
trailing slash beyond the root.  (Deliberately no length bound: the
path validator of the code has none.) -/
def pathSpec (s : List Char) : Bool :=
  match s with
  | [] => false
  | c :: rest => if c = '/' then (rest.isEmpty || segsOk rest) else false

/-- Following the spec's wording: a member name is a leading alphabetic or
underscore character followed by alphanumeric-or-underscore characters,
at most 255 characters in all. -/
def memberSpec (s : List Char) : Bool :=
  match s with
  | [] => false
  | c :: rest =>
    (isAlphaC c || c == '_') && (rest.all (fun d => isAlnumC d || d == '_') &&
      decide (1 + rest.length ≤ 255))

/-- Necessary character-class and length conditions for interface names:
leading alphabetic or underscore, the rest alphanumeric, underscore or
dot, and at least one dot. -/
def ifaceNec (s : List Char) : Bool :=
  match s with
  | [] => false
  | c :: rest =>
    (isAlphaC c || c == '_') && rest.all (fun d => isAlnumC d || d == '_' || d == '.') &&
      decide (0 < rest.count '.')

/-- Necessary character-class conditions for bus names: an optional
leading colon, then an alphanumeric, underscore or dash character, the
rest also allowing dots, with at least one dot. -/
def busNec (s : List Char) : Bool :=
  match s with
  | [] => false
  | c :: rest =>
    if c = ':' then
      match rest with
      | [] => false
      | d :: rest2 =>
        (isAlnumC d || d == '_' || d == '-') &&
          rest2.all (fun e => isAlnumC e || e == '_' || e == '-' || e == '.') &&
          decide (0 < rest2.count '.')
    else
      (isAlnumC c || c == '_' || c == '-') &&
        rest.all (fun e => isAlnumC e || e == '_' || e == '-' || e == '.') &&
        decide (0 < rest.count '.')

/-! The path loop, related to the grammar: from a slash the remainder must
be a fresh segment, from a segment character it must be a segment
continuation. -/

theorem path_loop_grammar : ∀ (l : List Char),
    (l ≠ [] → _tdbus_check_path_loop '/' l = segsOk l) ∧
    (∀ p, p ≠ '/' → _tdbus_check_path_loop p l = segTail l)
  | [] => ⟨fun h => absurd rfl h, fun p hp => by simp [_tdbus_check_path_loop, segTail]⟩
  | c :: r => by
    obtain ⟨hA, hB⟩ := path_loop_grammar r
    constructor
    · intro _
      by_cases hc : c = '/'
      · subst hc
        simp [_tdbus_check_path_loop, segsOk, segChar, show isAlnumC '/' = false from rfl]
      · simp [_tdbus_check_path_loop, segsOk, segChar, hc, hB c hc]
    · intro p hp
      by_cases hc : c = '/'
      · subst hc
        cases r with
        | nil =>
          simp [_tdbus_check_path_loop, segTail, segsOk, hp,
            show isAlnumC '/' = false from rfl]
        | cons d r2 =>
          have hpb : (p == '/') = false := beq_eq_false_iff_ne.mpr hp
          have hstep : _tdbus_check_path_loop p ('/' :: d :: r2) =
              _tdbus_check_path_loop '/' (d :: r2) := by
            rw [show _tdbus_check_path_loop p ('/' :: d :: r2) =
              ((isAlnumC '/' || '/' == '_' ||
                  ('/' == '/' && !(p == '/') && !(d :: r2).isEmpty)) &&
                _tdbus_check_path_loop '/' (d :: r2)) from rfl]
            simp [hpb, show isAlnumC '/' = false from rfl]
          rw [hstep, hA (by simp), show segTail ('/' :: d :: r2) = segsOk (d :: r2) from by
            simp [segTail]]
      · have hcb : (c == '/') = false := beq_eq_false_iff_ne.mpr hc
        simp [_tdbus_check_path_loop, segTail, segChar, hc, hcb, hB c hc]

theorem check_path_eq_pathSpec (s : List Char) : _tdbus_check_path s = pathSpec s := by
  cases s with
  | nil => rfl
  | cons c rest =>
    by_cases hc : c = '/'
    · subst hc
      cases rest with
      | nil => simp [_tdbus_check_path, pathSpec, _tdbus_check_path_loop]
      | cons d r2 =>
        have h := (path_loop_grammar (d :: r2)).1 (by simp)
        simp [_tdbus_check_path, pathSpec, h]
    · simp [_tdbus_check_path, pathSpec, hc]

theorem member_loop_iff : ∀ (l : List Char) (i : Nat),
    _tdbus_check_member_loop i l =
      (l.all (fun c => isAlnumC c || c == '_') && decide (i + l.length ≤ 255))
  | [], i => by simp [_tdbus_check_member_loop]
  | c :: r, i => by
    have he : decide (i + 1 + r.length ≤ 255) = decide (i + (r.length + 1) ≤ 255) :=
      decide_eq_decide.mpr (by omega)
    simp [_tdbus_check_member_loop, member_loop_iff r (i + 1), he, Bool.and_assoc]

theorem check_member_eq_memberSpec (s : List Char) :
    _tdbus_check_member s = memberSpec s := by
  cases s with
  | nil => rfl
  | cons c rest => simp [_tdbus_check_member, memberSpec, member_loop_iff rest 1]

theorem interface_loop_nec : ∀ (l : List Char) (p : Char) (i nd : Nat),
    _tdbus_check_interface_loop p i nd l = true →
    i + l.length ≤ 255 ∧ l.all (fun c => isAlnumC c || c == '_' || c == '.') = true ∧
      0 < nd + l.count '.'
  | [], p, i, nd => by
    intro h
    simp only [_tdbus_check_interface_loop, Bool.and_eq_true, decide_eq_true_eq] at h
    exact ⟨by simpa using h.1, by simp, by simpa using h.2⟩
  | c :: r, p, i, nd => by
    intro h
    simp only [_tdbus_check_interface_loop, Bool.and_eq_true] at h
    obtain ⟨hok, hrest⟩ := h
    obtain ⟨ih1, ih2, ih3⟩ := interface_loop_nec r c (i + 1) (if c == '.' then nd + 1 else nd) hrest
    refine ⟨by simp only [List.length_cons]; omega, ?_, ?_⟩
    · simp only [List.all_cons, Bool.and_eq_true]
      refine ⟨?_, ih2⟩
      simp only [Bool.or_eq_true, Bool.and_eq_true] at hok ⊢
      tauto
    · by_cases hc : (c == '.') = true
      · simp only [hc, if_true] at ih3
        simp only [List.count_cons, hc, if_true]
        omega
      · have hc2 : (c == '.') = false := by simpa using hc
        simp only [hc2, Bool.false_eq_true, if_false] at ih3
        simp only [List.count_cons, hc2, Bool.false_eq_true, if_false]
        omega

theorem check_interface_nec (s : List Char) (h : _tdbus_check_interface s = true) :
    s.length ≤ 255 ∧ ifaceNec s = true := by
  cases s with
  | nil => simp [_tdbus_check_interface] at h
  | cons c rest =>
    simp only [_tdbus_check_interface, Bool.and_eq_true] at h
    obtain ⟨h1, h2⟩ := h
    obtain ⟨n1, n2, n3⟩ := interface_loop_nec rest c 1 0 h2
    refine ⟨by simp only [List.length_cons]; omega, ?_⟩
    simp only [ifaceNec, Bool.and_eq_true, decide_eq_true_eq]
    exact ⟨⟨h1, n2⟩, by omega⟩

theorem bus_loop_nec : ∀ (l : List Char) (p : Char) (i nd : Nat),
    _tdbus_check_bus_name_loop p i nd l = true →
    i + l.length ≤ 255 ∧
      l.all (fun c => isAlnumC c || c == '_' || c == '-' || c == '.') = true ∧
      0 < nd + l.count '.'
  | [], p, i, nd => by
    intro h
    simp only [_tdbus_check_bus_name_loop, Bool.and_eq_true, decide_eq_true_eq] at h
    exact ⟨by simpa using h.1, by simp, by simpa using h.2⟩
  | c :: r, p, i, nd => by
    intro h
    simp only [_tdbus_check_bus_name_loop, Bool.and_eq_true] at h
    obtain ⟨hok, hrest⟩ := h
    obtain ⟨ih1, ih2, ih3⟩ := bus_loop_nec r c (i + 1) (if c == '.' then nd + 1 else nd) hrest
    refine ⟨by simp only [List.length_cons]; omega, ?_, ?_⟩
    · simp only [List.all_cons, Bool.and_eq_true]
      refine ⟨?_, ih2⟩
      simp only [Bool.or_eq_true, Bool.and_eq_true] at hok ⊢
      tauto
    · by_cases hc : (c == '.') = true
      · simp only [hc, if_true] at ih3
        simp only [List.count_cons, hc, if_true]
        omega
      · have hc2 : (c == '.') = false := by simpa using hc
        simp only [hc2, Bool.false_eq_true, if_false] at ih3
        simp only [List.count_cons, hc2, Bool.false_eq_true, if_false]
        omega

theorem check_bus_name_nec (s : List Char) (h : _tdbus_check_bus_name s = true) :
    s.length ≤ 255 ∧ busNec s = true := by
  cases s with
  | nil => simp [_tdbus_check_bus_name] at h
  | cons c rest =>
    by_cases hc : c = ':'
    · subst hc
      cases rest with
      | nil => simp [_tdbus_check_bus_name] at h
      | cons d rest2 =>
        rw [show _tdbus_check_bus_name (':' :: d :: rest2) =
          ((isAlnumC d || d == '_' || d == '-') &&
            _tdbus_check_bus_name_loop d 2 0 rest2) from rfl] at h
        simp only [Bool.and_eq_true] at h
        obtain ⟨h1, h2⟩ := h
        obtain ⟨n1, n2, n3⟩ := bus_loop_nec rest2 d 2 0 h2
        refine ⟨by simp only [List.length_cons]; omega, ?_⟩
        rw [show busNec (':' :: d :: rest2) =
          ((isAlnumC d || d == '_' || d == '-') &&
            rest2.all (fun e => isAlnumC e || e == '_' || e == '-' || e == '.') &&
            decide (0 < rest2.count '.')) from rfl]
        simp only [Bool.and_eq_true, decide_eq_true_eq]
        exact ⟨⟨h1, n2⟩, by omega⟩
    · simp only [_tdbus_check_bus_name, if_neg hc, Bool.and_eq_true] at h
      obtain ⟨h1, h2⟩ := h
      obtain ⟨n1, n2, n3⟩ := bus_loop_nec rest c 1 0 h2
      refine ⟨by simp only [List.length_cons]; omega, ?_⟩
      simp only [busNec, if_neg hc, Bool.and_eq_true, decide_eq_true_eq]
      exact ⟨⟨h1, n2⟩, by omega⟩

/-! The claims. -/

/-- C1: for every valid signature and every value tree matching it (the
data model of the spec), setting the message arguments succeeds and
reading them back yields the same value tree, under structural equality;
an array of bytes is written from a byte-buffer value and reads back as
the same byte buffer. -/
theorem C1_set_get_roundtrip (fmt : List Char) (vs : PyList)
    (hsig : _tdbus_check_signature fmt 0 0 = true) (hm : MatchesSeq fmt vs) :
    ∃ body, tdbus_message_set_args fmt vs = .ok body ∧
      tdbus_message_get_args body = some vs := by
  obtain ⟨ws, henc, hdec⟩ :=
    (encodeF_roundtrip (2 * (pySizeL vs + fmt.length) + 3)).2.1 fmt vs hm (le_refl _)
  refine ⟨ws, ?_, hdec⟩
  simp only [tdbus_message_set_args, hsig, if_true, _tdbus_message_append_args, henc]

/-- Witness for C1 at signature "i" and value 3. -/
theorem C1_set_get_roundtrip_witness :
    ∃ body, tdbus_message_set_args (("i").data) (.cons (.int 3) .nil) = .ok body ∧
      tdbus_message_get_args body = some (.cons (.int 3) .nil) :=
  C1_set_get_roundtrip (("i").data) (.cons (.int 3) .nil) rfl
    (MatchesSeq.cons (("i").data) [ 'i' ] [] (.int 3) .nil rfl
      (Matches.mI32 3 (by decide) (by decide)) MatchesSeq.nil)

/-- C2 as stated is false: the validator accepts "i)", which contains an
unmatched closing character, and accepts "h" (unix-fd), which is not in
the claim's thirteen-character basic alphabet. -/
theorem C2_counterexample :
    _tdbus_check_signature (("i)").data) 0 0 = true ∧
    _tdbus_check_signature (("h").data) 0 0 = true :=
  ⟨rfl, rfl⟩

/-- C2 amended: the basic alphabet is "ybnqiuxtdsogvh" (including
unix-fd 'h'); "a{sv}", "(ii)", "ai", "s", "v" and "" are accepted, "a",
"(ii" and the unknown character "z" rejected, and because one closing
character immediately following each complete type is skipped, "i)" is
accepted while "i))" is rejected. -/
theorem C2_signature_validator :
    _tdbus_check_signature (("a{sv}").data) 0 0 = true ∧
    _tdbus_check_signature (("(ii)").data) 0 0 = true ∧
    _tdbus_check_signature (("ai").data) 0 0 = true ∧
    _tdbus_check_signature (("s").data) 0 0 = true ∧
    _tdbus_check_signature (("v").data) 0 0 = true ∧
    _tdbus_check_signature (("").data) 0 0 = true ∧
    _tdbus_check_signature (("h").data) 0 0 = true ∧
    _tdbus_check_signature (("a").data) 0 0 = false ∧
    _tdbus_check_signature (("(ii").data) 0 0 = false ∧
    _tdbus_check_signature (("z").data) 0 0 = false ∧
    _tdbus_check_signature (("i)").data) 0 0 = true ∧
    _tdbus_check_signature (("i))").data) 0 0 = false :=
  ⟨rfl, rfl, rfl, rfl, rfl, rfl, rfl, rfl, rfl, rfl, rfl, rfl⟩

/-- C3 as stated is false: the validator accepts "{sv}", a dict-entry
that is not the element type of an array. -/
theorem C3_counterexample : _tdbus_check_signature (("{sv}").data) 0 0 = true :=
  rfl

/-- C3 amended: the validator applies no dict-entry-specific structural
checks beyond balance, depth and the basic alphabet: a dict-entry is
accepted outside an array ("{sv}", "{i}"), with more than two inner
types ("a{svv}"), and with a container key ("a{(i)v}"); only an
unbalanced dict-entry ("a{sv") is rejected. -/
theorem C3_dict_entry_checks :
    _tdbus_check_signature (("{sv}").data) 0 0 = true ∧
    _tdbus_check_signature (("{i}").data) 0 0 = true ∧
    _tdbus_check_signature (("a{svv}").data) 0 0 = true ∧
    _tdbus_check_signature (("a{(i)v}").data) 0 0 = true ∧
    _tdbus_check_signature (("a\x7bsv").data) 0 0 = false :=
  ⟨rfl, rfl, rfl, rfl, rfl⟩

/-- C4: the range check succeeds exactly when the value is numeric and
lies within the inclusive bounds of the integer wire type's width and
signedness, the comparisons being exact; a non-numeric value is rejected
with a type mismatch (never a range error) for every format character;
255 passes for byte and 256 fails, -1 fails for uint16, 32767 passes for
int16 and 32768 fails. -/
theorem C4_range_check (v : PyValue) :
    (_tdbus_check_number v 'y' = .ok ↔
      isNumber v = true ∧ 0 ≤ numValue v ∧ numValue v ≤ 255) ∧
    (_tdbus_check_number v 'q' = .ok ↔
      isNumber v = true ∧ 0 ≤ numValue v ∧ numValue v ≤ 65535) ∧
    (_tdbus_check_number v 'u' = .ok ↔
      isNumber v = true ∧ 0 ≤ numValue v ∧ numValue v ≤ 4294967295) ∧
    (_tdbus_check_number v 't' = .ok ↔
      isNumber v = true ∧ 0 ≤ numValue v ∧ numValue v ≤ 18446744073709551615) ∧
    (_tdbus_check_number v 'n' = .ok ↔
      isNumber v = true ∧ -32768 ≤ numValue v ∧ numValue v ≤ 32767) ∧
    (_tdbus_check_number v 'i' = .ok ↔
      isNumber v = true ∧ -2147483648 ≤ numValue v ∧ numValue v ≤ 2147483647) ∧
    (_tdbus_check_number v 'x' = .ok ↔
      isNumber v = true ∧
        -9223372036854775808 ≤ numValue v ∧ numValue v ≤ 9223372036854775807) ∧
    (isNumber v = false → ∀ t, _tdbus_check_number v t = .typeMismatch ∧
      _tdbus_check_number v t ≠ .rangeError) ∧
    _tdbus_check_number (.int 255) 'y' = .ok ∧
    _tdbus_check_number (.int 256) 'y' = .rangeError ∧
    _tdbus_check_number (.int (-1)) 'q' = .rangeError ∧
    _tdbus_check_number (.int 32767) 'n' = .ok ∧
    _tdbus_check_number (.int 32768) 'n' = .rangeError := by
  refine ⟨check_number_ok_iff v 'y' 0 255 rfl,
    check_number_ok_iff v 'q' 0 65535 rfl,
    check_number_ok_iff v 'u' 0 4294967295 rfl,
    check_number_ok_iff v 't' 0 18446744073709551615 rfl,
    check_number_ok_iff v 'n' (-32768) 32767 rfl,
    check_number_ok_iff v 'i' (-2147483648) 2147483647 rfl,
    check_number_ok_iff v 'x' (-9223372036854775808) 9223372036854775807 rfl,
    ?_, rfl, rfl, rfl, rfl, rfl⟩
  intro h t
  exact ⟨by simp [_tdbus_check_number, h], by simp [_tdbus_check_number, h]⟩

/-- Witness for C4: 7 passes the byte check, a unicode value fails it
with a type mismatch. -/
theorem C4_range_check_witness :
    _tdbus_check_number (.int 7) 'y' = .ok ∧
    _tdbus_check_number (.uni (("x").data)) 'y' = .typeMismatch :=
  ⟨(C4_range_check (.int 7)).1.mpr ⟨rfl, by decide, by decide⟩,
   ((C4_range_check (.uni (("x").data))).2.2.2.2.2.2.2.1 rfl 'y').1⟩

/-- C5 as stated is false: encoding "ii" with three values whose first
value is non-numeric fails with a type mismatch, not with an arity
error, even though three values differ from two types. -/
theorem C5_counterexample :
    _tdbus_message_append_args (("ii").data)
      (.cons (.uni (("x").data)) (.cons (.int 1) (.cons (.int 2) .nil)))
      = .error .typeMismatch ∧
    EncErr.typeMismatch ≠ EncErr.tooMany ∧ EncErr.typeMismatch ≠ EncErr.tooFew :=
  ⟨rfl, by simp, by simp⟩

/-- C5 amended: both arity directions are detected when per-value
encoding does not fail first — leftover values after the signature is
exhausted give too-many, an exhausted value list with a complete type
remaining gives too-few; "ii" with one value fails too-few and with
three (well-typed) values fails too-many.  A type mismatch on an earlier
value preempts the arity error. -/
theorem C5_arity_errors :
    (∀ (a : PyValue) (args : PyList),
      _tdbus_message_append_args [] (.cons a args) = .error .tooMany) ∧
    (∀ (fmt t rest : List Char), _tdbus_get_one_full_type fmt = some (t, rest) →
      _tdbus_message_append_args fmt .nil = .error .tooFew) ∧
    _tdbus_message_append_args (("ii").data) (.cons (.int 1) .nil) = .error .tooFew ∧
    _tdbus_message_append_args (("ii").data)
      (.cons (.int 1) (.cons (.int 2) (.cons (.int 3) .nil))) = .error .tooMany := by
  refine ⟨?_, ?_, rfl, rfl⟩
  · intro a args
    simp only [_tdbus_message_append_args]
    obtain ⟨f, hf⟩ :
        ∃ f, 2 * (pySizeL (PyList.cons a args) + List.length ([] : List Char)) + 3 = f + 1 :=
      ⟨2 * (pySizeL (PyList.cons a args) + List.length ([] : List Char)) + 2, by omega⟩
    rw [hf]
    simp only [encodeF, encStep, encSeq]
  · intro fmt t rest hparse
    cases fmt with
    | nil => simp [_tdbus_get_one_full_type] at hparse
    | cons c fmt2 =>
      simp only [_tdbus_message_append_args]
      obtain ⟨f, hf⟩ :
          ∃ f, 2 * (pySizeL PyList.nil + List.length (c :: fmt2)) + 3 = f + 1 :=
        ⟨2 * (pySizeL PyList.nil + List.length (c :: fmt2)) + 2, by omega⟩
      rw [hf]
      simp only [encodeF, encStep, encSeq, hparse]

/-- Witness for C5 at signature "i" with no values. -/
theorem C5_arity_errors_witness :
    _tdbus_message_append_args (("i").data) .nil = .error .tooFew :=
  C5_arity_errors.2.1 (("i").data) [ 'i' ] [] rfl

set_option maxRecDepth 10000 in
/-- C6: the depth counters are independent and cut off strictly above
32: 32 nested arrays are accepted and 33 rejected, 32 nested structs are
accepted and 33 rejected, 32 nested dict-entries (which count as struct
depth) are accepted and 33 rejected, and 32 arrays interleaved with 32
structs (64 levels in all) are accepted because each counter stays at
32. -/
theorem C6_depth_counters :
    _tdbus_check_signature (List.replicate 32 'a' ++ [ 'i' ]) 0 0 = true ∧
    _tdbus_check_signature (List.replicate 33 'a' ++ [ 'i' ]) 0 0 = false ∧
    _tdbus_check_signature
      (List.replicate 32 '(' ++ [ 'i' ] ++ List.replicate 32 ')') 0 0 = true ∧
    _tdbus_check_signature
      (List.replicate 33 '(' ++ [ 'i' ] ++ List.replicate 33 ')') 0 0 = false ∧
    _tdbus_check_signature
      (List.flatten (List.replicate 32 [ 'a', '(' ]) ++ [ 'i' ] ++
        List.replicate 32 ')') 0 0 = true ∧
    _tdbus_check_signature
      (List.flatten (List.replicate 32 [ '{', 'i' ]) ++ [ 'i' ] ++
        List.replicate 32 '}') 0 0 = true ∧
    _tdbus_check_signature
      (List.flatten (List.replicate 33 [ '{', 'i' ]) ++ [ 'i' ] ++
        List.replicate 33 '}') 0 0 = false :=
  ⟨by decide, by decide, by decide, by decide, by decide, by decide, by decide⟩

/-- C7 as stated is false: a dict-entry with three inner values decodes
to the pair of the first two instead of failing. -/
theorem C7_counterexample :
    _tdbus_message_read_arg (.wDictEntry (.cons (.wByte 1) (.cons (.wByte 2)
      (.cons (.wByte 3) .nil))))
      = some (.tuple (.cons (.int 1) (.cons (.int 2) .nil))) :=
  rfl

/-- C7 amended: a dict-entry with no or one inner element fails to
decode, and a dict-entry with two or more elements decodes the first two
into a pair, silently ignoring the rest. -/
theorem C7_dict_entry_shape :
    _tdbus_message_read_arg (.wDictEntry .nil) = none ∧
    (∀ w : WireVal, _tdbus_message_read_arg (.wDictEntry (.cons w .nil)) = none) ∧
    (∀ (k v : WireVal) (extra : WireList) (pk pv : PyValue),
      _tdbus_message_read_arg k = some pk → _tdbus_message_read_arg v = some pv →
      _tdbus_message_read_arg (.wDictEntry (.cons k (.cons v extra)))
        = some (.tuple (.cons pk (.cons pv .nil)))) := by
  refine ⟨rfl, fun w => rfl, ?_⟩
  intro k v extra pk pv h1 h2
  simp only [_tdbus_message_read_arg, h1, h2]

/-- Witness for C7 with a boolean key, a byte value and one ignored
extra element. -/
theorem C7_dict_entry_shape_witness :
    _tdbus_message_read_arg (.wDictEntry (.cons (.wBool true) (.cons (.wByte 2)
      (.cons (.wByte 9) .nil))))
      = some (.tuple (.cons (.bool true) (.cons (.int 2) .nil))) :=
  C7_dict_entry_shape.2.2 (.wBool true) (.wByte 2) (.cons (.wByte 9) .nil)
    (.bool true) (.int 2) rfl rfl

/-- C8: the empty signature is valid, encoding it with no values yields
an empty body, and decoding an empty body yields the empty top-level
sequence. -/
theorem C8_empty_message :
    _tdbus_check_signature [] 0 0 = true ∧
    tdbus_message_set_args [] PyList.nil = .ok WireList.nil ∧
    tdbus_message_get_args WireList.nil = some PyList.nil :=
  ⟨rfl, rfl, rfl⟩

set_option maxRecDepth 10000 in
/-- C9 as stated is false: the object-path validator accepts a path of
301 characters, so it enforces no maximum length (the other three
validators cap at 255). -/
theorem C9_counterexample :
    _tdbus_check_path ('/' :: List.replicate 300 'a') = true ∧
    256 ≤ ('/' :: List.replicate 300 'a').length :=
  ⟨by decide, by decide⟩

/-- C9 amended: the object-path validator accepts exactly the spec's
path grammar but with no length bound; the member validator accepts
exactly its character-class grammar capped at 255 characters; the
interface and bus-name validators accept a string only if it is at most
255 characters and satisfies their character classes (leading character
restricted, at least one dot). -/
theorem C9_identifier_validators :
    (∀ s, _tdbus_check_path s = pathSpec s) ∧
    (∀ s, _tdbus_check_member s = memberSpec s) ∧
    (∀ s, _tdbus_check_interface s = true → s.length ≤ 255 ∧ ifaceNec s = true) ∧
    (∀ s, _tdbus_check_bus_name s = true → s.length ≤ 255 ∧ busNec s = true) :=
  ⟨check_path_eq_pathSpec, check_member_eq_memberSpec,
    check_interface_nec, check_bus_name_nec⟩

/-- Witness for C9: the over-long path is accepted by the grammar, and a
concrete interface name is within length and class. -/
theorem C9_identifier_validators_witness :
    _tdbus_check_path ('/' :: List.replicate 300 'a') = pathSpec ('/' :: List.replicate 300 'a') ∧
    ((("com.example").data).length ≤ 255 ∧ ifaceNec (("com.example").data) = true) :=
  ⟨C9_identifier_validators.1 ('/' :: List.replicate 300 'a'),
   C9_identifier_validators.2.2.1 (("com.example").data) rfl⟩

/-- C10: an array of dict-entries whose every entry decodes is folded
into a dict in wire order with PyDict_SetItem, duplicate keys never
raising an error, and the lookup of every key in the result is the value
of the key's last occurrence on the wire. -/
theorem C10_dict_last_occurrence (esig : List Char) (ws : WireList) (es : PyPairs)
    (h : DecEntries ws es) :
    _tdbus_message_read_arg (.wArray ('{' :: esig) ws) = some (.dict (dictFoldIns .nil es)) ∧
    (∀ k, dictFind (dictFoldIns .nil es) k = lastVal es k) := by
  constructor
  · simp only [_tdbus_message_read_arg, readDictFold_entries h PyPairs.nil]
  · intro k
    rw [dictFind_foldIns es .nil k]
    cases hl : lastVal es k <;> rfl

/-- Witness for C10: two entries with the same key "k"; the resulting
dict maps "k" to the second value. -/
theorem C10_dict_last_occurrence_witness :
    _tdbus_message_read_arg (.wArray ('{' :: 's' :: 'i' :: '}' :: [])
        (.cons (.wDictEntry (.cons (.wString (("k").data)) (.cons (.wI32 1) .nil)))
          (.cons (.wDictEntry (.cons (.wString (("k").data)) (.cons (.wI32 2) .nil))) .nil)))
      = some (.dict (dictFoldIns .nil
          (.cons (.uni (("k").data)) (.int 1)
            (.cons (.uni (("k").data)) (.int 2) .nil)))) ∧
    (∀ k, dictFind (dictFoldIns .nil
        (.cons (.uni (("k").data)) (.int 1)
          (.cons (.uni (("k").data)) (.int 2) .nil))) k
      = lastVal (.cons (.uni (("k").data)) (.int 1)
          (.cons (.uni (("k").data)) (.int 2) .nil)) k) :=
  C10_dict_last_occurrence ('s' :: 'i' :: '}' :: [])
    (.cons (.wDictEntry (.cons (.wString (("k").data)) (.cons (.wI32 1) .nil)))
      (.cons (.wDictEntry (.cons (.wString (("k").data)) (.cons (.wI32 2) .nil))) .nil))
    (.cons (.uni (("k").data)) (.int 1) (.cons (.uni (("k").data)) (.int 2) .nil))
    (DecEntries.cons _ _ _ _ _ rfl (DecEntries.cons _ _ _ _ _ rfl DecEntries.nil))
